import Mathlib

/-!
Verification of the cosmic-clock time-and-coordinate simulation pipeline.

The definitions below are a shallow embedding of `src/main.ts` (all three
revisions of the file agree on every function modelled here unless noted).
JavaScript numbers are modelled as exact rationals (`ℚ`) where the code is
pure arithmetic, and as real numbers (`ℝ`) where the code uses `Math.pow`,
`Math.exp`, `Math.sqrt` or `Math.acos`.
-/

/-- State of `TimeController` (src/main.ts lines 39-63): the private
wall-clock anchor `lastRealMs`, the public `paused` and `speed` flags and
the simulated time `simTime` in milliseconds since the epoch. -/
structure TimeControllerState where
  lastRealMs : ℚ
  paused : Bool
  speed : ℚ
  simTime : ℚ
  deriving DecidableEq, Repr

/-- The record returned by `TimeController.tick` (`AstroClockTime` in the
source): wall clock `now`, simulated time snapshot `sim`, and the elapsed
real seconds `dtReal` since the previous tick. -/
structure AstroClockTime where
  now : ℚ
  sim : ℚ
  dtReal : ℚ
  deriving DecidableEq, Repr

/-- `TimeController.tick` (src/main.ts lines 49-62).  The two ambient clock
readings the method takes inside its body — `performance.now()` and
`new Date()` — are passed explicitly as `realNowMs` and `nowWallMs`.
Computes `dtReal = (realNowMs - lastRealMs) / 1000` seconds (no clamping in
the source), stores the new anchor, and when not paused advances `simTime`
by `dtReal * 1000 * speed` milliseconds; returns the updated state together
with the `AstroClockTime` snapshot taken after the update. -/
def TimeController.tick (s : TimeControllerState) (realNowMs nowWallMs : ℚ) :
    TimeControllerState × AstroClockTime :=
  let dtReal := (realNowMs - s.lastRealMs) / 1000
  let simTime' := if s.paused then s.simTime else s.simTime + dtReal * 1000 * s.speed
  ({ s with lastRealMs := realNowMs, simTime := simTime' },
   { now := nowWallMs, sim := simTime', dtReal := dtReal })

/-- `TimeController.resetNow` (src/main.ts lines 45-47): sets `simTime` to
the current wall-clock time (`new Date()`, passed here as `nowWallMs`) and
touches nothing else. -/
def TimeController.resetNow (s : TimeControllerState) (nowWallMs : ℚ) :
    TimeControllerState :=
  { s with simTime := nowWallMs }

/-- The daylight flag computed in `buildEarthPanel` of the second revision
(src/main.ts line 759): `const daylight = hor.altitude > 0`. -/
def daylight (altitudeDeg : ℚ) : Bool :=
  decide (0 < altitudeDeg)

/-- A three-component vector, standing both for astronomy-engine vectors
(`{x, y, z}`) and for `THREE.Vector3` scene vectors. -/
structure Vec3 (α : Type) where
  x : α
  y : α
  z : α
  deriving DecidableEq, Repr

/-- Dot product of two vectors, as computed by `THREE.Vector3.dot` and by
`lengthSq` (`dot3 v v`). -/
def dot3 {α : Type} [Mul α] [Add α] (u v : Vec3 α) : α :=
  u.x * v.x + u.y * v.y + u.z * v.z

/-- `astroToThreeVec` (src/main.ts lines 115-120): the fixed coordinate
mapping from the ephemeris frame (astro `+Z` = north) into the scene frame
(three.js `Y`-up), `(x, y, z) ↦ (x·scale, z·scale, y·scale)`. -/
def astroToThreeVec {α : Type} [Mul α] (v : Vec3 α) (scale : α) : Vec3 α :=
  ⟨v.x * scale, v.z * scale, v.y * scale⟩

/-- Length of a scene vector (`THREE.Vector3.length`). -/
noncomputable def norm3 (v : Vec3 ℝ) : ℝ :=
  Real.sqrt (dot3 v v)

/-- The angle between two vectors, `arccos (u·v / (‖u‖ ‖v‖))`, as
`THREE.Vector3.angleTo` computes it. -/
noncomputable def angle3 (u v : Vec3 ℝ) : ℝ :=
  Real.arccos (dot3 u v / (norm3 u * norm3 v))

/-- The `unit` helper (src/main.ts lines 109-113): clone the input and
normalize the clone only when its squared length is positive, so the zero
vector passes through unchanged and no division by zero occurs. -/
noncomputable def unit (v : Vec3 ℝ) : Vec3 ℝ :=
  if 0 < dot3 v v then ⟨v.x / norm3 v, v.y / norm3 v, v.z / norm3 v⟩ else v

/-- The Moon distance exaggeration constant of `buildSolarPanel`
(src/main.ts line 964): `const moonExaggeration = 60`. -/
def moonExaggeration : ℚ := 60

/-- Earth's scene position in `buildSolarPanel` (src/main.ts lines
949-953): the heliocentric provider vector `hv` is mapped by
`astroToThreeVec` at 1 scene unit = 1 AU and then flattened onto the XZ
plane: `mesh.position.set(p.x, 0, p.y)`. -/
def earthScenePos (hv : Vec3 ℚ) : Vec3 ℚ :=
  let p := astroToThreeVec hv 1
  ⟨p.x, 0, p.y⟩

/-- The Moon's scene position in `buildSolarPanel` (src/main.ts lines
960-969): Earth's scene position plus the flattened, coordinate-mapped
geocentric Earth→Moon vector `mv` scaled by `moonExaggeration`:
`earth + (moonP.x, 0, moonP.y) * 60` with `moonP = astroToThreeVec mv`. -/
def moonScenePos (hv mv : Vec3 ℚ) : Vec3 ℚ :=
  let e := earthScenePos hv
  let moonP := astroToThreeVec mv 1
  ⟨e.x + moonP.x * moonExaggeration, e.y + 0 * moonExaggeration,
    e.z + moonP.y * moonExaggeration⟩

/-- Truncation toward zero, the rounding JavaScript's `%` operator applies
to the quotient. -/
def jsTrunc (q : ℚ) : ℤ :=
  if 0 ≤ q then ⌊q⌋ else ⌈q⌉

/-- The JavaScript remainder operator `a % b`: `a - b * trunc(a / b)`, so
the result takes the sign of the dividend. -/
def jsRem (a b : ℚ) : ℚ :=
  a - b * jsTrunc (a / b)

/-- The Earth spin angle, in degrees, of the first revision's
`buildEarthPanel` (src/main.ts lines 197-206): hour angle
`haDeg = ((gst - ra) * 15 + 540) % 360 - 180`, subsolar longitude `-haDeg`,
and spin `subsolarLonDeg + texOff` (the source then converts to radians). -/
def spinHourAngleDeg (gstHours raHours texOffDeg : ℚ) : ℚ :=
  let haDeg := jsRem ((gstHours - raHours) * 15 + 540) 360 - 180
  let subsolarLonDeg := -haDeg
  subsolarLonDeg + texOffDeg

/-- The Earth spin angle, in degrees, of the second revision's
`buildEarthPanel` (src/main.ts lines 724-737): sidereal time converted to
degrees with a texture offset, `-gst * 15 + texOff` (the source computes
`-gstRad + offRad` in radians). -/
def spinSiderealDeg (gstHours texOffDeg : ℚ) : ℚ :=
  -(gstHours * 15) + texOffDeg

/-- The toy cosmology scale factor of `buildUniversePanel` (src/main.ts
lines 1046-1057): `tNorm = clamp(ageGyr/30, 0, 1)`, matter curve
`tNorm^(2/3)`, lambda curve `exp((tNorm - 1) * 0.7)`, blended with weights
0.6/0.4 and clamped to `[0.01, 1]`. -/
noncomputable def universeScaleFactor (ageGyr : ℝ) : ℝ :=
  let tNorm := min 1 (max 0 (ageGyr / 30))
  let aMatter := tNorm ^ ((2 : ℝ) / 3)
  let aLambda := Real.exp ((tNorm - 1) * 0.7)
  min 1 (max 0.01 (0.6 * aMatter + 0.4 * aLambda))

/-- The epoch label chain of `buildUniversePanel` (src/main.ts lines
1072-1078), ascending age thresholds. -/
def universeEpochLabel (ageGyr : ℚ) : String :=
  if ageGyr < 0.5 then "recombination / dark ages"
  else if ageGyr < 1.5 then "first galaxies"
  else if ageGyr < 5 then "peak star formation"
  else if ageGyr < 10 then "maturing cosmic web"
  else if ageGyr < 20 then "dark energy era"
  else "far future (Λ-dominated)"

/-- The trail capacity constant `TRAIL_POINTS` of `buildSolarPanel`
(src/main.ts line 824). -/
def TRAIL_POINTS : ℕ := 512

/-- The per-body `Trail` record (src/main.ts lines 815-825): the backing
positions buffer (a `Float32Array` of `TRAIL_POINTS` slots, modelled one
vector per slot), the write cursor `index` and the filled `count`.  The
`geom`/`line` fields are render-sink handles with no bearing on the buffer
bookkeeping and are not modelled. -/
structure Trail (α : Type) where
  positions : List α
  index : ℕ
  count : ℕ
  deriving DecidableEq, Repr

/-- A freshly allocated trail: `TRAIL_POINTS` zeroed slots (`d` is the
zero value), cursor 0, count 0 (src/main.ts lines 849-871). -/
def trailInit {α : Type} (d : α) : Trail α :=
  { positions := List.replicate TRAIL_POINTS d, index := 0, count := 0 }

/-- `pushTrail` (src/main.ts lines 873-888): write the position into the
cursor slot in place, advance the cursor modulo `TRAIL_POINTS`, and bump
the filled count capped at `TRAIL_POINTS`.  (`setDrawRange` and the
`needsUpdate` flag only notify the renderer.) -/
def pushTrail {α : Type} (t : Trail α) (pos : α) : Trail α :=
  { positions := t.positions.set t.index pos
    index := (t.index + 1) % TRAIL_POINTS
    count := min TRAIL_POINTS (t.count + 1) }

/-- Pushing a whole sequence of positions, one frame after another. -/
def pushMany {α : Type} (t : Trail α) (ps : List α) : Trail α :=
  ps.foldl pushTrail t

/-- C1: for every clock state with `speed ≥ 0` and every elapsed real
interval `dtReal ≥ 0`, an unpaused `tick()` advances `simulatedTime` by
exactly `dtReal × 1000 × speed` milliseconds and the returned `sim` snapshot
equals the updated value; a paused `tick()` leaves `simulatedTime`
unchanged and the snapshot shows the unchanged value. -/
theorem tick_advances_simTime (s : TimeControllerState) (realNowMs nowWallMs : ℚ)
    (hspeed : 0 ≤ s.speed)
    (hdt : 0 ≤ (realNowMs - s.lastRealMs) / 1000) :
    (s.paused = false →
      (TimeController.tick s realNowMs nowWallMs).1.simTime
          = s.simTime + ((realNowMs - s.lastRealMs) / 1000) * 1000 * s.speed
        ∧ (TimeController.tick s realNowMs nowWallMs).2.sim
          = (TimeController.tick s realNowMs nowWallMs).1.simTime)
    ∧ (s.paused = true →
      (TimeController.tick s realNowMs nowWallMs).1.simTime = s.simTime
        ∧ (TimeController.tick s realNowMs nowWallMs).2.sim = s.simTime) := by
  cases hp : s.paused <;> simp [TimeController.tick, hp]

/-- Witness for C1, at the spec's own scenario: speed 3600, an elapsed real
second (`realNowMs = 1000` past an anchor of `0`), unpaused — the simulated
time advances by exactly 3 600 000 ms. -/
theorem tick_advances_simTime_witness :
    (0:ℚ) ≤ (3600:ℚ) ∧ (0:ℚ) ≤ ((1000:ℚ) - 0) / 1000 ∧
    ((⟨0, false, 3600, 0⟩ : TimeControllerState).paused = false →
      (TimeController.tick ⟨0, false, 3600, 0⟩ 1000 42).1.simTime
          = (0:ℚ) + (((1000:ℚ) - 0) / 1000) * 1000 * 3600
        ∧ (TimeController.tick ⟨0, false, 3600, 0⟩ 1000 42).2.sim
          = (TimeController.tick ⟨0, false, 3600, 0⟩ 1000 42).1.simTime) :=
  ⟨by norm_num, by norm_num,
    (tick_advances_simTime ⟨0, false, 3600, 0⟩ 1000 42 (by norm_num) (by norm_num)).1⟩

/-- C2 counterexample: the source computes
`dtReal = (realNowMs - lastRealMs) / 1000` without any clamp, so a
wall-clock reading earlier than the previous one yields a strictly negative
`dtReal` (not `0`), and an unpaused tick at speed 1 then strictly decreases
`simulatedTime`.  Concrete input: state
`{lastRealMs := 1000, paused := false, speed := 1, simTime := 0}` ticked at
`realNowMs = 0`. -/
theorem tick_negative_dtReal_cex :
    (TimeController.tick ⟨1000, false, 1, 0⟩ 0 0).2.dtReal < 0
      ∧ (TimeController.tick ⟨1000, false, 1, 0⟩ 0 0).1.simTime
          < (⟨1000, false, 1, 0⟩ : TimeControllerState).simTime := by
  norm_num [TimeController.tick]

/-- C2 amended: provided the wall-clock reading passed to `tick()` is not
earlier than the previous one (which `performance.now()` guarantees, being
monotonic), the returned `dtReal` is non-negative; with non-negative speed
the unpaused `simulatedTime` is non-decreasing across the tick, and while
paused it is unchanged. -/
theorem tick_monotone_simTime (s : TimeControllerState) (realNowMs nowWallMs : ℚ)
    (hmono : s.lastRealMs ≤ realNowMs) (hspeed : 0 ≤ s.speed) :
    0 ≤ (TimeController.tick s realNowMs nowWallMs).2.dtReal
      ∧ s.simTime ≤ (TimeController.tick s realNowMs nowWallMs).1.simTime
      ∧ (s.paused = true →
          (TimeController.tick s realNowMs nowWallMs).1.simTime = s.simTime) := by
  have hdt : 0 ≤ (realNowMs - s.lastRealMs) / 1000 := by
    apply div_nonneg _ (by norm_num)
    linarith
  refine ⟨hdt, ?_, ?_⟩
  · cases hp : s.paused <;> simp [TimeController.tick, hp]
    have : 0 ≤ (realNowMs - s.lastRealMs) / 1000 * 1000 * s.speed := by positivity
    linarith
  · intro hp
    simp [TimeController.tick, hp]

/-- Witness for the amended C2 at a concrete unpaused state: anchor 0,
reading 500, speed 60. -/
theorem tick_monotone_simTime_witness :
    ((⟨0, false, 60, 7⟩ : TimeControllerState).lastRealMs ≤ (500:ℚ))
      ∧ (0:ℚ) ≤ (⟨0, false, 60, 7⟩ : TimeControllerState).speed
      ∧ (0 ≤ (TimeController.tick ⟨0, false, 60, 7⟩ 500 9).2.dtReal
          ∧ (7:ℚ) ≤ (TimeController.tick ⟨0, false, 60, 7⟩ 500 9).1.simTime
          ∧ ((⟨0, false, 60, 7⟩ : TimeControllerState).paused = true →
              (TimeController.tick ⟨0, false, 60, 7⟩ 500 9).1.simTime = 7)) :=
  ⟨by norm_num, by norm_num,
    tick_monotone_simTime ⟨0, false, 60, 7⟩ 500 9 (by norm_num) (by norm_num)⟩

/-- C8: `resetNow()` sets `simulatedTime` to the current wall-clock time
for every prior clock state, regardless of the `paused` flag and `speed`
(which it leaves untouched, along with the wall anchor). -/
theorem resetNow_sets_simTime (s : TimeControllerState) (nowWallMs : ℚ) :
    (TimeController.resetNow s nowWallMs).simTime = nowWallMs
      ∧ (TimeController.resetNow s nowWallMs).paused = s.paused
      ∧ (TimeController.resetNow s nowWallMs).speed = s.speed
      ∧ (TimeController.resetNow s nowWallMs).lastRealMs = s.lastRealMs := by
  simp [TimeController.resetNow]

/-- The coordinate mapping scales dot products by the square of the
uniform scale (the axis swap contributes nothing). -/
theorem dot3_astroToThreeVec (u v : Vec3 ℝ) (s : ℝ) :
    dot3 (astroToThreeVec u s) (astroToThreeVec v s) = s ^ 2 * dot3 u v := by
  simp only [dot3, astroToThreeVec]
  ring

/-- The coordinate mapping scales lengths by a non-negative uniform
scale. -/
theorem norm3_astroToThreeVec (u : Vec3 ℝ) {s : ℝ} (hs : 0 ≤ s) :
    norm3 (astroToThreeVec u s) = s * norm3 u := by
  rw [norm3, dot3_astroToThreeVec, Real.sqrt_mul (sq_nonneg s), Real.sqrt_sq hs, norm3]

/-- C6: `astroToThreeVec` with a positive uniform scale is a bijection on
vectors that preserves relative geometry: the angle between the images of
any two vectors equals the angle between the originals, orthogonality is
preserved in both directions, and every length is scaled by the same factor
`s` (so ratios of lengths are preserved). -/
theorem astroToThreeVec_preserves_geometry (u v : Vec3 ℝ) (s : ℝ) (hs : 0 < s) :
    angle3 (astroToThreeVec u s) (astroToThreeVec v s) = angle3 u v
      ∧ Function.Bijective (fun w : Vec3 ℝ => astroToThreeVec w s)
      ∧ (dot3 (astroToThreeVec u s) (astroToThreeVec v s) = 0 ↔ dot3 u v = 0)
      ∧ norm3 (astroToThreeVec u s) = s * norm3 u := by
  have hs2 : s ^ 2 ≠ 0 := by positivity
  refine ⟨?_, ⟨?_, ?_⟩, ?_, norm3_astroToThreeVec u hs.le⟩
  · unfold angle3
    rw [dot3_astroToThreeVec, norm3_astroToThreeVec u hs.le, norm3_astroToThreeVec v hs.le]
    congr 1
    have h : s * norm3 u * (s * norm3 v) = s ^ 2 * (norm3 u * norm3 v) := by ring
    rw [h, mul_div_mul_left _ _ hs2]
  · intro a b hab
    cases a with
    | mk ax ay az =>
      cases b with
      | mk bx bY bz =>
        simp only [astroToThreeVec, Vec3.mk.injEq] at hab ⊢
        obtain ⟨h1, h2, h3⟩ := hab
        exact ⟨mul_right_cancel₀ hs.ne' h1, mul_right_cancel₀ hs.ne' h3,
          mul_right_cancel₀ hs.ne' h2⟩
  · intro w
    refine ⟨astroToThreeVec w s⁻¹, ?_⟩
    cases w with
    | mk wx wy wz =>
      simp only [astroToThreeVec, Vec3.mk.injEq]
      refine ⟨?_, ?_, ?_⟩ <;> field_simp
  · rw [dot3_astroToThreeVec]
    constructor
    · intro h
      rcases mul_eq_zero.mp h with h' | h'
      · exact absurd h' hs2
      · exact h'
    · intro h
      rw [h, mul_zero]

/-- Witness for C6 at orthogonal unit inputs and scale 2. -/
theorem astroToThreeVec_preserves_geometry_witness :
    (0:ℝ) < 2 ∧
    (angle3 (astroToThreeVec ⟨1, 0, 0⟩ 2) (astroToThreeVec ⟨0, 1, 0⟩ 2)
        = angle3 ⟨1, 0, 0⟩ ⟨0, 1, 0⟩
      ∧ Function.Bijective (fun w : Vec3 ℝ => astroToThreeVec w 2)
      ∧ (dot3 (astroToThreeVec (⟨1, 0, 0⟩ : Vec3 ℝ) 2) (astroToThreeVec ⟨0, 1, 0⟩ 2) = 0
          ↔ dot3 (⟨1, 0, 0⟩ : Vec3 ℝ) ⟨0, 1, 0⟩ = 0)
      ∧ norm3 (astroToThreeVec ⟨1, 0, 0⟩ 2) = 2 * norm3 ⟨1, 0, 0⟩) :=
  ⟨by norm_num,
    astroToThreeVec_preserves_geometry ⟨1, 0, 0⟩ ⟨0, 1, 0⟩ 2 (by norm_num)⟩

/-- C7: the two Earth-orientation derivations are not numerically
equivalent: at Greenwich sidereal time 0 h, Sun right ascension 6 h and
texture offset 0°, the hour-angle derivation gives a spin of 90° while the
sidereal derivation gives 0°, and the two do not even agree modulo a full
360° turn. -/
theorem spin_derivations_differ :
    ∃ gstHours raHours texOffDeg : ℚ,
      spinHourAngleDeg gstHours raHours texOffDeg ≠ spinSiderealDeg gstHours texOffDeg
        ∧ ∀ k : ℤ,
            spinHourAngleDeg gstHours raHours texOffDeg - spinSiderealDeg gstHours texOffDeg
              ≠ 360 * (k : ℚ) := by
  have hA : spinHourAngleDeg 0 6 0 = 90 := by
    norm_num [spinHourAngleDeg, jsRem, jsTrunc]
  have hB : spinSiderealDeg 0 0 = 0 := by
    norm_num [spinSiderealDeg]
  refine ⟨0, 6, 0, ?_, ?_⟩
  · rw [hA, hB]
    norm_num
  · intro k
    rw [hA, hB]
    intro h
    have h4 : ((4 * k : ℤ) : ℚ) = 1 := by
      push_cast
      linarith
    have h5 : (4 * k : ℤ) = 1 := by exact_mod_cast h4
    omega

/-- C10: `unit()` is total and never divides by zero: an input of zero
squared length is returned unchanged (and is necessarily the zero vector),
while an input of nonzero squared length is mapped to a vector of length 1
that is a positive scalar multiple of the input (same direction).  The
embedding is a pure function of its argument, mirroring the source's
`clone()` which leaves the input vector untouched. -/
theorem unit_total_no_div_zero (v : Vec3 ℝ) :
    (dot3 v v = 0 → unit v = v ∧ v = ⟨0, 0, 0⟩)
      ∧ (dot3 v v ≠ 0 → norm3 (unit v) = 1
          ∧ ∃ c : ℝ, 0 < c ∧ unit v = ⟨c * v.x, c * v.y, c * v.z⟩) := by
  constructor
  · intro h
    have hnot : ¬ 0 < dot3 v v := by
      rw [h]
      exact lt_irrefl 0
    have h1 : unit v = v := by rw [unit, if_neg hnot]
    refine ⟨h1, ?_⟩
    have h' : v.x * v.x + v.y * v.y + v.z * v.z = 0 := by simpa [dot3] using h
    have hx : v.x = 0 := mul_self_eq_zero.mp (by
      linarith [mul_self_nonneg v.x, mul_self_nonneg v.y, mul_self_nonneg v.z])
    have hy : v.y = 0 := mul_self_eq_zero.mp (by
      linarith [mul_self_nonneg v.x, mul_self_nonneg v.y, mul_self_nonneg v.z])
    have hz : v.z = 0 := mul_self_eq_zero.mp (by
      linarith [mul_self_nonneg v.x, mul_self_nonneg v.y, mul_self_nonneg v.z])
    cases v with
    | mk a b c => simp only [Vec3.mk.injEq]; exact ⟨hx, hy, hz⟩
  · intro h
    have hge : 0 ≤ dot3 v v := by
      simp only [dot3]
      have := mul_self_nonneg v.x
      have := mul_self_nonneg v.y
      have := mul_self_nonneg v.z
      linarith
    have hpos : 0 < dot3 v v := lt_of_le_of_ne hge (Ne.symm h)
    have hn : 0 < norm3 v := Real.sqrt_pos.mpr hpos
    have hn2 : norm3 v * norm3 v = dot3 v v := Real.mul_self_sqrt hpos.le
    have hu : unit v = ⟨v.x / norm3 v, v.y / norm3 v, v.z / norm3 v⟩ := by
      rw [unit, if_pos hpos]
    have hd : dot3 (unit v) (unit v) = 1 := by
      rw [hu]
      simp only [dot3]
      field_simp
      rw [hn2]
      simp [dot3]
    refine ⟨?_, (norm3 v)⁻¹, inv_pos.mpr hn, ?_⟩
    · rw [norm3, hd, Real.sqrt_one]
    · rw [hu]
      simp only [Vec3.mk.injEq, div_eq_inv_mul]

/-- Witness for C10 at the vector `(3, 0, 4)` of length 5. -/
theorem unit_total_no_div_zero_witness :
    dot3 (⟨3, 0, 4⟩ : Vec3 ℝ) ⟨3, 0, 4⟩ ≠ 0
      ∧ (norm3 (unit ⟨3, 0, 4⟩) = 1
          ∧ ∃ c : ℝ, 0 < c
              ∧ unit (⟨3, 0, 4⟩ : Vec3 ℝ)
                  = ⟨c * (3:ℝ), c * (0:ℝ), c * (4:ℝ)⟩) :=
  ⟨by norm_num [dot3], (unit_total_no_div_zero ⟨3, 0, 4⟩).2 (by norm_num [dot3])⟩

/-- C5 counterexample: with Earth at the origin and a geocentric Moon
offset of `(0, 0, 1)` (pure north in the ephemeris frame), the code places
the Moon at scene `(0, 0, 60)` whereas "Earth plus 60 × the raw
coordinate-mapped offset" would be scene `(0, 60, 0)`: the vertical scene
component of the offset is discarded, so the position is a flattened
projection, not the full scaled vector. -/
theorem moon_offset_flattened_cex :
    moonScenePos ⟨0, 0, 0⟩ ⟨0, 0, 1⟩
      ≠ ⟨(earthScenePos ⟨0, 0, 0⟩).x + (astroToThreeVec ⟨0, 0, 1⟩ 1).x * moonExaggeration,
         (earthScenePos ⟨0, 0, 0⟩).y + (astroToThreeVec ⟨0, 0, 1⟩ 1).y * moonExaggeration,
         (earthScenePos ⟨0, 0, 0⟩).z + (astroToThreeVec ⟨0, 0, 1⟩ 1).z * moonExaggeration⟩ := by
  simp only [moonScenePos, earthScenePos, astroToThreeVec, moonExaggeration, Vec3.mk.injEq]
  norm_num

/-- C5 amended: the Moon's scene position equals Earth's scene position
plus 60 × the *flattened* mapped geocentric offset: the scene-x component
adds `60 · mv.x`, the scene-y (vertical) component of the offset is dropped
entirely, and the scene-z component adds `60 · mv.z` — matching the
flattening applied to the planets themselves. -/
theorem moon_scenePos_flattened (hv mv : Vec3 ℚ) :
    (moonScenePos hv mv).x = (earthScenePos hv).x + moonExaggeration * mv.x
      ∧ (moonScenePos hv mv).y = (earthScenePos hv).y
      ∧ (moonScenePos hv mv).z = (earthScenePos hv).z + moonExaggeration * mv.z := by
  simp only [moonScenePos, earthScenePos, astroToThreeVec, moonExaggeration]
  refine ⟨by ring, by ring, by ring⟩

/-- C9: the daylight flag is `true` exactly when the provider-reported Sun
altitude is strictly positive; equivalently it is `false` exactly when the
altitude is `≤ 0`, and the boundary altitude `0` resolves to `false`. -/
theorem daylight_iff_altitude_pos (altitudeDeg : ℚ) :
    (daylight altitudeDeg = true ↔ 0 < altitudeDeg)
      ∧ (daylight altitudeDeg = false ↔ altitudeDeg ≤ 0)
      ∧ daylight 0 = false := by
  constructor
  · simp [daylight]
  · constructor
    · simp [daylight, not_lt]
    · simp [daylight]

/-- Numeric bounds on the canonical scale factor at `ageGyr = 13.8`:
`tNorm = 0.46`, the matter curve lies in `[0.46, 0.68]` and the lambda
curve in `[0.622, 0.726]`, so the clamped blend lies in `(0.52, 0.7)`. -/
theorem universeScaleFactor_at_13_8_bounds :
    0.52 < universeScaleFactor 13.8 ∧ universeScaleFactor 13.8 < 0.7 := by
  have ht : min (1:ℝ) (max 0 ((13.8:ℝ) / 30)) = 0.46 := by norm_num
  have hx : (0:ℝ) < 0.46 := by norm_num
  have hx1 : (0.46:ℝ) ≤ 1 := by norm_num
  have hup : (0.46:ℝ) ^ ((2:ℝ)/3) ≤ 0.68 := by
    have h1 : (0.46:ℝ) ^ ((2:ℝ)/3) ≤ (0.46:ℝ) ^ ((1:ℝ)/2) :=
      Real.rpow_le_rpow_of_exponent_ge hx hx1 (by norm_num)
    have h2 : (0.46:ℝ) ^ ((1:ℝ)/2) = Real.sqrt 0.46 := by
      rw [Real.sqrt_eq_rpow]
    have h3 : Real.sqrt 0.46 ≤ 0.68 := by
      have h4 : Real.sqrt 0.46 ≤ Real.sqrt (0.68 ^ 2) := Real.sqrt_le_sqrt (by norm_num)
      rwa [Real.sqrt_sq (by norm_num : (0:ℝ) ≤ 0.68)] at h4
    calc (0.46:ℝ) ^ ((2:ℝ)/3) ≤ (0.46:ℝ) ^ ((1:ℝ)/2) := h1
      _ = Real.sqrt 0.46 := h2
      _ ≤ 0.68 := h3
  have hlow : (0.46:ℝ) ≤ (0.46:ℝ) ^ ((2:ℝ)/3) := by
    have h1 : (0.46:ℝ) ^ (1:ℝ) ≤ (0.46:ℝ) ^ ((2:ℝ)/3) :=
      Real.rpow_le_rpow_of_exponent_ge hx hx1 (by norm_num)
    rwa [Real.rpow_one] at h1
  have he : ((0.46:ℝ) - 1) * 0.7 = -0.378 := by norm_num
  have hexplow : (0.622:ℝ) ≤ Real.exp (((0.46:ℝ) - 1) * 0.7) := by
    have h := Real.add_one_le_exp (((0.46:ℝ) - 1) * 0.7)
    rw [he] at h
    rw [he]
    linarith
  have hexpup : Real.exp (((0.46:ℝ) - 1) * 0.7) ≤ 0.726 := by
    rw [he]
    have ha : (1.378:ℝ) ≤ Real.exp 0.378 := by
      have h := Real.add_one_le_exp (0.378:ℝ)
      linarith
    rw [Real.exp_neg]
    have hc : (Real.exp 0.378)⁻¹ ≤ (1.378:ℝ)⁻¹ := inv_anti₀ (by norm_num) ha
    calc (Real.exp 0.378)⁻¹ ≤ (1.378:ℝ)⁻¹ := hc
      _ ≤ 0.726 := by norm_num
  have hval : universeScaleFactor 13.8
      = min 1 (max 0.01
          (0.6 * (0.46:ℝ) ^ ((2:ℝ)/3) + 0.4 * Real.exp (((0.46:ℝ) - 1) * 0.7))) := by
    simp only [universeScaleFactor]
    rw [ht]
  constructor
  · rw [hval]
    have hB : (0.52:ℝ)
        < 0.6 * (0.46:ℝ) ^ ((2:ℝ)/3) + 0.4 * Real.exp (((0.46:ℝ) - 1) * 0.7) := by
      linarith
    have hmax : (0.52:ℝ)
        < max 0.01 (0.6 * (0.46:ℝ) ^ ((2:ℝ)/3)
            + 0.4 * Real.exp (((0.46:ℝ) - 1) * 0.7)) :=
      lt_of_lt_of_le hB (le_max_right _ _)
    exact lt_min (by norm_num) hmax
  · rw [hval]
    have hB : 0.6 * (0.46:ℝ) ^ ((2:ℝ)/3) + 0.4 * Real.exp (((0.46:ℝ) - 1) * 0.7)
        ≤ (0.6984:ℝ) := by
      linarith
    calc min 1 (max 0.01 (0.6 * (0.46:ℝ) ^ ((2:ℝ)/3)
            + 0.4 * Real.exp (((0.46:ℝ) - 1) * 0.7)))
        ≤ max 0.01 (0.6 * (0.46:ℝ) ^ ((2:ℝ)/3)
            + 0.4 * Real.exp (((0.46:ℝ) - 1) * 0.7)) := min_le_right _ _
      _ ≤ 0.6984 := max_le (by norm_num) hB
      _ < 0.7 := by norm_num

/-- C4 counterexample: at `ageGyr = 13.8` the canonical formula yields a
scale factor strictly below `0.93` (it is about `0.632`), so the claimed
range 0.93–1.0 is wrong. -/
theorem universeScaleFactor_not_in_claimed_range :
    universeScaleFactor 13.8 < 0.93 :=
  lt_trans universeScaleFactor_at_13_8_bounds.2 (by norm_num)

/-- C4 amended: for `ageGyr = 13.8` the canonical computation yields a
scale factor `a ≈ 0.63`, provably in the open interval `(0.52, 0.7)` (not
0.93–1.0), and the derived epoch label is "dark energy era" since
`10 ≤ 13.8 < 20`. -/
theorem universe_panel_at_13_8 :
    0.52 < universeScaleFactor 13.8 ∧ universeScaleFactor 13.8 < 0.7
      ∧ universeEpochLabel 13.8 = "dark energy era" :=
  ⟨universeScaleFactor_at_13_8_bounds.1, universeScaleFactor_at_13_8_bounds.2,
    by norm_num [universeEpochLabel]⟩

/-- Invariant of the trail ring buffer after any sequence of pushes into a
fresh buffer: the backing array keeps its `TRAIL_POINTS` length (no
reallocation), the cursor equals the number of pushes modulo the capacity,
the filled count is the number of pushes capped at the capacity, and
reading `count` slots forward from the logical start of the ring
(`index + (TRAIL_POINTS - count)`) yields the last `count` pushed
positions in insertion order. -/
theorem pushMany_trailInit_spec {α : Type} (d : α) (ps : List α) :
    (pushMany (trailInit d) ps).positions.length = TRAIL_POINTS
      ∧ (pushMany (trailInit d) ps).index = ps.length % TRAIL_POINTS
      ∧ (pushMany (trailInit d) ps).count = min TRAIL_POINTS ps.length
      ∧ ∀ k, k < (pushMany (trailInit d) ps).count →
          (pushMany (trailInit d) ps).positions.getD
              (((pushMany (trailInit d) ps).index
                  + (TRAIL_POINTS - (pushMany (trailInit d) ps).count) + k) % TRAIL_POINTS) d
            = ps.getD (ps.length - (pushMany (trailInit d) ps).count + k) d := by
  induction ps using List.reverseRecOn with
  | nil =>
      refine ⟨?_, ?_, ?_, ?_⟩ <;> simp [pushMany, trailInit]
  | append_singleton ps p ih =>
      obtain ⟨hlen, hidx, hcnt, hslot⟩ := ih
      have hstep : pushMany (trailInit d) (ps ++ [p])
          = pushTrail (pushMany (trailInit d) ps) p := by
        simp [pushMany]
      rw [hstep]
      simp only [pushTrail, List.length_set, List.length_append, List.length_cons,
        List.length_nil, Nat.zero_add]
      refine ⟨hlen, ?_, ?_, ?_⟩
      · rw [hidx]
        simp only [TRAIL_POINTS]
        omega
      · rw [hcnt]
        simp only [TRAIL_POINTS]
        omega
      · intro k hk
        rw [hcnt] at hk
        rw [hidx, hcnt]
        simp only [TRAIL_POINTS] at hk hlen ⊢
        by_cases hkc : k = min 512 (min 512 ps.length + 1) - 1
        · have hj : ((ps.length % 512 + 1) % 512
              + (512 - min 512 (min 512 ps.length + 1)) + k) % 512
              = ps.length % 512 := by omega
          have hr : ps.length + 1 - min 512 (min 512 ps.length + 1) + k = ps.length := by
            omega
          rw [hj, hr, List.getD_eq_getElem?_getD, List.getD_eq_getElem?_getD,
            List.getElem?_set_self (by rw [hlen]; omega),
            List.getElem?_append_right (le_refl ps.length)]
          simp
        · rcases Nat.lt_or_ge ps.length 512 with hl | hl
          · have hj : ((ps.length % 512 + 1) % 512
                + (512 - min 512 (min 512 ps.length + 1)) + k) % 512 = k := by omega
            have hne : ps.length % 512 ≠ k := by omega
            have h2 := hslot k (by rw [hcnt]; simp only [TRAIL_POINTS]; omega)
            rw [hidx, hcnt] at h2
            simp only [TRAIL_POINTS] at h2
            have hj2 : (ps.length % 512 + (512 - min 512 ps.length) + k) % 512 = k := by
              omega
            have hr2 : ps.length - min 512 ps.length + k = k := by omega
            rw [hj2, hr2] at h2
            have hr : ps.length + 1 - min 512 (min 512 ps.length + 1) + k = k := by omega
            rw [hj, hr]
            simp only [List.getD_eq_getElem?_getD] at h2 ⊢
            rw [List.getElem?_set_ne hne,
              List.getElem?_append_left (by omega : k < ps.length)]
            exact h2
          · have hj : ((ps.length % 512 + 1) % 512
                + (512 - min 512 (min 512 ps.length + 1)) + k) % 512
                = (ps.length + 1 + k) % 512 := by omega
            have hne : ps.length % 512 ≠ (ps.length + 1 + k) % 512 := by omega
            have h2 := hslot (k + 1) (by rw [hcnt]; simp only [TRAIL_POINTS]; omega)
            rw [hidx, hcnt] at h2
            simp only [TRAIL_POINTS] at h2
            have hj2 : (ps.length % 512 + (512 - min 512 ps.length) + (k + 1)) % 512
                = (ps.length + 1 + k) % 512 := by omega
            have hr2 : ps.length - min 512 ps.length + (k + 1)
                = ps.length + 1 - 512 + k := by omega
            rw [hj2, hr2] at h2
            have hr : ps.length + 1 - min 512 (min 512 ps.length + 1) + k
                = ps.length + 1 - 512 + k := by omega
            rw [hj, hr]
            simp only [List.getD_eq_getElem?_getD] at h2 ⊢
            rw [List.getElem?_set_ne hne,
              List.getElem?_append_left (by omega : ps.length + 1 - 512 + k < ps.length)]
            exact h2

/-- C3: for the trail buffer of capacity `TRAIL_POINTS = 512`, the filled
count never exceeds the capacity and the backing array never changes
length (no reallocation) after any sequence of pushes; after `M > 512`
pushes the filled count is exactly 512 and the stored slots, read in ring
order from the write cursor, are exactly the last 512 pushed positions in
insertion order — so the slot about to be overwritten (at the cursor,
`k = 0`) always holds the oldest retained position (FIFO). -/
theorem trail_last_N_fifo {α : Type} (d : α) (ps : List α)
    (h : TRAIL_POINTS < ps.length) :
    (∀ qs : List α, (pushMany (trailInit d) qs).count ≤ TRAIL_POINTS
        ∧ (pushMany (trailInit d) qs).positions.length = TRAIL_POINTS)
      ∧ (pushMany (trailInit d) ps).count = TRAIL_POINTS
      ∧ ∀ k, k < TRAIL_POINTS →
          (pushMany (trailInit d) ps).positions.getD
              (((pushMany (trailInit d) ps).index + k) % TRAIL_POINTS) d
            = ps.getD (ps.length - TRAIL_POINTS + k) d := by
  obtain ⟨hlen, hidx, hcnt, hslot⟩ := pushMany_trailInit_spec d ps
  have hc : (pushMany (trailInit d) ps).count = TRAIL_POINTS := by
    rw [hcnt]
    exact Nat.min_eq_left (le_of_lt h)
  refine ⟨?_, hc, ?_⟩
  · intro qs
    obtain ⟨hql, _, hqc, _⟩ := pushMany_trailInit_spec d qs
    exact ⟨by rw [hqc]; exact Nat.min_le_left _ _, hql⟩
  · intro k hk
    have h2 := hslot k (by rw [hc]; exact hk)
    rw [hc] at h2
    simpa [Nat.sub_self] using h2

/-- Witness for C3: 513 pushes of the value 1 into a fresh natural-valued
trail. -/
theorem trail_last_N_fifo_witness :
    TRAIL_POINTS < (List.replicate 513 (1:ℕ)).length
      ∧ ((∀ qs : List ℕ, (pushMany (trailInit 0) qs).count ≤ TRAIL_POINTS
            ∧ (pushMany (trailInit 0) qs).positions.length = TRAIL_POINTS)
          ∧ (pushMany (trailInit 0) (List.replicate 513 1)).count = TRAIL_POINTS
          ∧ ∀ k, k < TRAIL_POINTS →
              (pushMany (trailInit 0) (List.replicate 513 1)).positions.getD
                  (((pushMany (trailInit 0) (List.replicate 513 1)).index + k)
                    % TRAIL_POINTS) 0
                = (List.replicate 513 1).getD
                    ((List.replicate 513 1).length - TRAIL_POINTS + k) 0) :=
  ⟨by rw [List.length_replicate]; simp only [TRAIL_POINTS]; omega,
    trail_last_N_fifo 0 (List.replicate 513 1)
      (by rw [List.length_replicate]; simp only [TRAIL_POINTS]; omega)⟩
